import Mathlib

/-!
Shallow embedding of the embedding-based article pre-filter of the
rss-morning repository (rss_morning/prefilter.py, with the cache layer of
rss_morning/db.py abstracted as a key-value lookup).

Numeric conventions: Python floats are modelled as rationals.  The machine
square root (np.linalg.norm) is abstracted as an explicit parameter
sqrtQ : Q -> Q threaded through every definition that the source feeds a
norm into; no claim below depends on any numeric property of the square
root itself, and concrete instances pick inputs whose squared norm is 1 so
that the parameter is forced only at 1.
-/

set_option allowUnsafeReducibility true

attribute [local semireducible] Rat.add Rat.mul Rat.inv Rat.sub Rat.ofScientific

set_option maxRecDepth 8000

/-- A dense embedding vector, one rational per component
(numpy float arrays in the source). -/
abbrev Vec := List ℚ

/-- Dot product, as in EmbeddingArticleFilter._dot:
sum(lft * rght for lft, rght in zip(left, right)). -/
def dotQ (left right : Vec) : ℚ := (List.zipWith (· * ·) left right).sum

/-- L2 normalisation step used in filter (lines 203-209) and in
_get_category_centroids (lines 316-321): divide by the norm when it is
nonzero, otherwise return the zero vector of the same shape. -/
def normalizeQ (sqrtQ : ℚ → ℚ) (v : Vec) : Vec :=
  let n : ℚ := sqrtQ ((v.map (fun x => x * x)).sum)
  if n = 0 then v.map (fun _ => 0) else v.map (· / n)

/-- Componentwise mean of a stack of vectors, as np.mean(stack, axis=0)
in _get_category_centroids. -/
def meanVec (vs : List Vec) : Vec :=
  match vs with
  | [] => []
  | v0 :: _ =>
      (List.range v0.length).map
        (fun i => ((vs.map (fun v => v.getD i 0)).sum) / (vs.length : ℚ))

/-- EmbeddingArticleFilter._cosine: zero when either norm is zero,
otherwise the dot over the product of norms, clipped to the interval
from -1 to 1. -/
def cosineQ (sqrtQ : ℚ → ℚ) (left right : Vec) : ℚ :=
  let ln : ℚ := sqrtQ ((left.map (fun x => x * x)).sum)
  let rn : ℚ := sqrtQ ((right.map (fun x => x * x)).sum)
  if ln = 0 ∨ rn = 0 then 0
  else max (min (dotQ left right / (ln * rn)) 1) (-1)

/-- Round to the nearest integer with ties to even, the rounding mode of
the Python builtin round. -/
def roundHalfEven (q : ℚ) : ℤ :=
  let f : ℤ := ⌊q⌋
  let frac : ℚ := q - (f : ℚ)
  if frac < 1/2 then f
  else if (1:ℚ)/2 < frac then f + 1
  else if f % 2 = 0 then f else f + 1

/-- Python round(x, 4) applied to the exact rational value. -/
def round4 (q : ℚ) : ℚ := ((roundHalfEven (q * 10000) : ℤ) : ℚ) / 10000

/-- One entry of the other_urls annotation. -/
structure OtherUrl where
  url : String
  distance : ℚ
deriving DecidableEq, Repr, Inhabited

/-- An article dictionary: the fields the pre-filter reads, plus the
annotation fields it writes.  A missing dictionary key is none. -/
structure Article where
  url : Option String := none
  title : Option String := none
  summary : Option String := none
  text : Option String := none
  category : Option String := none
  prefilter_score : Option ℚ := none
  prefilter_match : Option String := none
  other_urls : Option (List OtherUrl) := none
deriving DecidableEq, Repr, Inhabited

/-- The _EmbeddingConfig dataclass with its default values. -/
structure EmbeddingConfig where
  model : String := "intfloat/multilingual-e5-large"
  provider : String := "fastembed"
  batch_size : Nat := 16
  threshold : ℚ := 1/2
  max_article_length : Nat := 5000
  max_cluster_size : Nat := 5
deriving DecidableEq, Repr, Inhabited

/-- The _ScoredArticle inner dataclass. -/
structure ScoredArticle where
  score : ℚ
  article : Article
  vector : Vec
  category : String
deriving DecidableEq, Repr, Inhabited

/-- Errors a pipeline step can raise: a provider failure
(backend unreachable or misconfigured), or a Python TypeError such as
np.asarray(None, dtype=float). -/
inductive PyError where
  | backendFailure : PyError
  | typeError : PyError
deriving DecidableEq, Repr, Inhabited

/-- Python str(x) for x an optional string: None prints as the four
letter string used by str(item.get(quoted url)) at line 199. -/
def pyStr (u : Option String) : String :=
  match u with
  | none => "None"
  | some s => s

/-- The external collaborators of one filter invocation: the abstracted
machine square root, the embedding backend (self._backend.embed, which can
raise), the optional persistent vector cache (db.get_embeddings keyed by
url, returning a serialized blob), and the blob deserializer
(json.loads over the decoded bytes, which can fail). -/
structure FilterEnv where
  sqrtQ : ℚ → ℚ
  backend : List String → Except PyError (List Vec)
  cache : Option (String → Option String)
  jsonDecodeVec : String → Option Vec

/-- Cache hit followed by deserialization for one url: line 358,
json.loads(cached[url].decode(utf8)), none when the url is absent or the
stored blob does not decode. -/
def cachedLookup (c : String → Option String) (decode : String → Option Vec)
    (u : String) : Option Vec :=
  (c u).bind decode

/-- The per-position cache results for a batch (lines 343-365): for each
text and url pair, the decoded cached vector when present and decodable. -/
def hitsOf (c : String → Option String) (decode : String → Option Vec)
    (texts urls : List String) : List (Option Vec) :=
  (texts.zip urls).map (fun tu => cachedLookup c decode tu.2)

/-- The texts that must be re-embedded, in their original order: cache
misses together with stored vectors that failed to deserialize. -/
def missingTextsOf (c : String → Option String) (decode : String → Option Vec)
    (texts urls : List String) : List String :=
  (texts.zip urls).filterMap
    (fun tu => if (cachedLookup c decode tu.2).isNone then some tu.1 else none)

/-- Place the freshly computed vectors back at the missing positions, in
order (lines 371-375: ordered_vectors[missing_indices[i]] = vector). -/
def fillMisses : List (Option Vec) → List Vec → List (Option Vec)
  | [], _ => []
  | some v :: rest, ns => some v :: fillMisses rest ns
  | none :: rest, [] => none :: fillMisses rest []
  | none :: rest, n :: ns => some n :: fillMisses rest ns

/-- The cached branch of _embed_texts (session factory present and urls
nonempty): look everything up, re-embed exactly the misses, merge by
original position.  Positions of texts beyond the length of urls are never
filled (zip truncation) and stay None. -/
def embedTextsCached (backend : List String → Except PyError (List Vec))
    (c : String → Option String) (decode : String → Option Vec)
    (texts urls : List String) : Except PyError (List (Option Vec)) :=
  let hits := hitsOf c decode texts urls
  let missing := missingTextsOf c decode texts urls
  let tail := List.replicate (texts.length - (texts.zip urls).length)
      (none : Option Vec)
  if missing.isEmpty then .ok (hits ++ tail)
  else (backend missing).map (fun vs => fillMisses hits vs ++ tail)

/-- EmbeddingArticleFilter._embed_texts: without a session factory or
without urls the backend is called directly (line 331), otherwise the
cached branch runs. -/
def embedTextsE (env : FilterEnv) (texts : List String)
    (urls : Option (List String)) : Except PyError (List (Option Vec)) :=
  match env.cache, urls with
  | some c, some us =>
      if us.isEmpty then (env.backend texts).map (List.map some)
      else embedTextsCached env.backend c env.jsonDecodeVec texts us
  | _, _ => (env.backend texts).map (List.map some)

/-- EmbeddingArticleFilter._get_category_centroids, one fresh computation
(the class-level memoization only caches this same value): for each
category with a nonempty query tuple, in configured order, embed the
queries, average, renormalize.  The query-embedding call passes no urls,
so every returned entry is present and filterMap id strips the option
wrappers the uniform return type introduces. -/
def getCategoryCentroidsE (env : FilterEnv) :
    List (String × List String) → Except PyError (List (String × Vec))
  | [] => .ok []
  | cq :: rest =>
      if cq.2.isEmpty then getCategoryCentroidsE env rest
      else do
        let embs ← embedTextsE env cq.2 none
        let c := (cq.1, normalizeQ env.sqrtQ (meanVec (embs.filterMap id)))
        let cs ← getCategoryCentroidsE env rest
        pure (c :: cs)

/-- One step of the best-centroid fold in _score_against_centroids: the
accumulator none models best_score equal to minus infinity, which every
first score strictly exceeds; a later entry replaces the best only on a
strictly greater score. -/
def scoreStep (v : Vec) (best : Option (String × ℚ)) (c : String × Vec) :
    Option (String × ℚ) :=
  match best with
  | none => some (c.1, dotQ v c.2)
  | some bs => if dotQ v c.2 > bs.2 then some (c.1, dotQ v c.2) else some bs

/-- EmbeddingArticleFilter._score_against_centroids: fold over the
centroid mapping in its insertion order; none models the (None, nan)
result on an empty mapping. -/
def scoreAgainstCentroids (v : Vec) (centroids : List (String × Vec)) :
    Option (String × ℚ) :=
  centroids.foldl (scoreStep v) none

/-- Insertion into the insertion-ordered scored_by_category dictionary:
append to the existing bucket of the key, or open a new bucket at the
end. -/
def bucketInsert {α : Type} (l : List (String × List α)) (cat : String)
    (x : α) : List (String × List α) :=
  match l with
  | [] => [(cat, [x])]
  | b :: rest =>
      if b.1 = cat then (b.1, b.2 ++ [x]) :: rest
      else b :: bucketInsert rest cat x

/-- The annotations written at lines 230-233 before an article is added
to its bucket. -/
def annotateScored (a : Article) (c : String) (s : ℚ) : Article :=
  { a with prefilter_score := some s, category := some c,
           prefilter_match := some c }

/-- The scoring loop of filter (lines 225-240): score each article vector
against the centroids, skip it when no category wins or the best score is
strictly below the threshold, otherwise annotate the article and add the
scored item to its category bucket. -/
def scoreLoop (th : ℚ) (cs : List (String × Vec))
    (pairs : List (Article × Vec)) : List (String × List ScoredArticle) :=
  pairs.foldl
    (fun buckets av =>
      match scoreAgainstCentroids av.2 cs with
      | none => buckets
      | some cscore =>
          if cscore.2 < th then buckets
          else bucketInsert buckets cscore.1
            ⟨cscore.2, annotateScored av.1 cscore.1 cscore.2, av.2, cscore.1⟩)
    []

/-- The descending-by-score relation used by
items.sort(key=lambda x: x.score, reverse=True). -/
def scoreGe (a b : ScoredArticle) : Prop := b.score ≤ a.score

instance : DecidableRel scoreGe :=
  fun a b => inferInstanceAs (Decidable (b.score ≤ a.score))

instance : IsTotal ScoredArticle scoreGe := ⟨fun a b => le_total b.score a.score⟩

instance : IsTrans ScoredArticle scoreGe :=
  ⟨fun _ _ _ h₁ h₂ => le_trans h₂ h₁⟩

/-- The stable descending sort of a bucket (line 247).  The Python list
sort is stable; a stable insertion sort under the same relation computes
the identical list. -/
def sortByScoreDesc (l : List ScoredArticle) : List ScoredArticle :=
  List.insertionSort scoreGe l

/-- One other_urls entry (lines 270-277): the url of the member (empty
string for a missing or falsy url) and the rounded clipped cosine
distance to the kernel. -/
def otherEntry (sqrtQ : ℚ → ℚ) (kernel o : ScoredArticle) : OtherUrl :=
  ⟨o.article.url.getD "",
   round4 (max 0 (1 - cosineQ sqrtQ kernel.vector o.vector))⟩

/-- The per-bucket retention of filter (lines 245-285): sort the bucket by
score descending, keep the top max_cluster_size items, make the top one
the kernel carrying one other_urls entry per remaining kept item in kept
order, give every other kept item an empty other_urls list. -/
def assembleBucket (sqrtQ : ℚ → ℚ) (m : Nat) (items : List ScoredArticle) :
    List Article :=
  let kept := (sortByScoreDesc items).take m
  match kept with
  | [] => []
  | kernel :: others =>
      ({ kernel.article with
          other_urls := some (others.map (otherEntry sqrtQ kernel)) })
        :: others.map (fun o => { o.article with other_urls := some [] })

/-- The retained list assembled across the buckets in their insertion
order. -/
def assembleRetained (sqrtQ : ℚ → ℚ) (m : Nat)
    (buckets : List (String × List ScoredArticle)) : List Article :=
  buckets.foldl (fun acc b => acc ++ assembleBucket sqrtQ m b.2) []

/-- All scored items of all buckets, in bucket order. -/
def bucketArticles {α : Type} (buckets : List (String × List α)) : List α :=
  buckets.foldl (fun acc b => acc ++ b.2) []

/-- Python str.strip: drop leading and trailing whitespace (rendered over
the character list so the kernel can evaluate it). -/
def pyStrip (s : String) : String :=
  ⟨((s.data.dropWhile Char.isWhitespace).reverse.dropWhile
      Char.isWhitespace).reverse⟩

/-- Python string slicing s[:n] by code points (rendered over the
character list so the kernel can evaluate it). -/
def pyTake (s : String) (n : Nat) : String := ⟨s.data.take n⟩

/-- EmbeddingArticleFilter._compose_article_text: join the truthy parts of
title, summary and text with newlines, strip, truncate. -/
def composeArticleText (cfg : EmbeddingConfig) (a : Article) : String :=
  let parts := [a.title.getD "", a.summary.getD "", a.text.getD ""]
  pyTake (pyStrip (String.intercalate "\n" (parts.filter (fun p => p ≠ ""))))
    cfg.max_article_length

/-- Collapse a list of optional vectors, failing on the first None: the
loop at lines 202-209 feeds each entry to np.asarray(float), which raises
a TypeError on None. -/
def optionAll {α : Type} : List (Option α) → Option (List α)
  | [] => some []
  | none :: _ => none
  | some a :: rest => (optionAll rest).map (a :: ·)

/-- The body of the try block of filter (lines 192-292), for an already
materialized nonempty article list: compute centroids, compose and embed
the article texts, normalize, score, cap and assemble; the two degraded
non-exception paths (no centroids, no article vectors) return the
materialized list. -/
def filterTry (env : FilterEnv) (cfg : EmbeddingConfig)
    (qs : List (String × List String)) (materialized : List Article) :
    Except PyError (List Article) := do
  let centroids ← getCategoryCentroidsE env qs
  if centroids.isEmpty then return materialized
  let texts := materialized.map (composeArticleText cfg)
  let urls := materialized.map (fun a => pyStr a.url)
  let raw ← embedTextsE env texts (some urls)
  match optionAll raw with
  | none => throw PyError.typeError
  | some rawVecs =>
    let vecs := rawVecs.map (normalizeQ env.sqrtQ)
    if vecs.isEmpty then return materialized
    return assembleRetained env.sqrtQ cfg.max_cluster_size
      (scoreLoop cfg.threshold centroids (materialized.zip vecs))

/-- Stand-in for the random.Random generator filter accepts: a stream of
draws.  The body of filter never consults it. -/
abbrev RNG := Nat → Nat

/-- EmbeddingArticleFilter.filter: materialize fresh copies of the input
dictionaries (value-identical to the originals), return the empty list on
empty input, and otherwise run the try block, returning the materialized
list unchanged when any step raises.  The cluster_threshold and rng
keyword arguments are accepted exactly as in the source signature. -/
def filter (env : FilterEnv) (cfg : EmbeddingConfig)
    (qs : List (String × List String)) (articles : List Article)
    (cluster_threshold : Option ℚ) (rng : RNG) : List Article :=
  let materialized := articles
  if materialized.isEmpty then []
  else
    match filterTry env cfg qs materialized with
    | .ok r => r
    | .error _ => materialized

/-! Specification-side definitions.  The following definitions follow the
words of the specification, not the source; they exist only to be compared
against the source-derived pipeline above. -/

/-- Lexicographic order on strings, rendered over the character lists so
the kernel can evaluate it. -/
def pyStrLt (a b : String) : Prop := a.data < b.data

instance (a b : String) : Decidable (pyStrLt a b) :=
  inferInstanceAs (Decidable (a.data < b.data))

/-- Modelled from the spec, section 4.5 step 4: the cluster kernel is the
member closest in cosine to the cluster centroid, ties broken by higher
relevance score, then by lexicographically smaller url. -/
def specKernel (sqrtQ : ℚ → ℚ) (cluster : List ScoredArticle) :
    Option ScoredArticle :=
  let centroid := normalizeQ sqrtQ (meanVec (cluster.map (fun x => x.vector)))
  cluster.foldl
    (fun best x =>
      match best with
      | none => some x
      | some b =>
          let cx := cosineQ sqrtQ x.vector centroid
          let cb := cosineQ sqrtQ b.vector centroid
          if cx > cb then some x
          else if cx = cb ∧ (x.score > b.score ∨
              (x.score = b.score ∧
               pyStrLt (x.article.url.getD "") (b.article.url.getD ""))) then
            some x
          else some b)
    none

/-- Modelled from the spec, section 4.5 steps 1-2: while unclustered items
remain, draw a seed through the injected random source (a draw k selects
index rand k modulo the pool size), absorb every unclustered item whose
cosine similarity to the seed reaches the cluster threshold, and repeat on
the remainder.  The fuel argument is the initial pool size. -/
def specDrawClusters (sqrtQ : ℚ → ℚ) (ct : ℚ) (rand : Nat → Nat) :
    Nat → Nat → List ScoredArticle → List (List ScoredArticle)
  | 0, _, _ => []
  | Nat.succ fuel, k, pool =>
      match pool with
      | [] => []
      | p0 :: _ =>
          let i := rand k % pool.length
          let seed := pool.getD i p0
          let rest := pool.eraseIdx i
          let joined := rest.filter
              (fun x => ct ≤ cosineQ sqrtQ seed.vector x.vector)
          let notJoined := rest.filter
              (fun x => ¬ ct ≤ cosineQ sqrtQ seed.vector x.vector)
          (seed :: joined) :: specDrawClusters sqrtQ ct rand fuel (k + 1) notJoined

/-- Modelled from the spec, sections 4.5-4.6 threshold clustering mode:
run the randomized greedy leader clustering over the relevant set and
return only the cluster kernels. -/
def specClusterKernels (sqrtQ : ℚ → ℚ) (ct : ℚ) (rand : Nat → Nat)
    (items : List ScoredArticle) : List ScoredArticle :=
  (specDrawClusters sqrtQ ct rand items.length 0 items).filterMap
    (specKernel sqrtQ)

/-! The precomputed query-embeddings file: export_security_query_embeddings
and EmbeddingArticleFilter._load_query_embeddings. -/

/-- The payload object of a precomputed embeddings file, with every field
optional exactly as payload.get is. -/
structure Payload where
  model : Option String := none
  threshold : Option ℚ := none
  queries : Option (List String) := none
  embeddings : Option (List Vec) := none
deriving DecidableEq, Repr, Inhabited

/-- What _load_query_embeddings finds at its path: a missing file
(FileNotFoundError, caught), malformed JSON (JSONDecodeError, caught), a
valid JSON document that is not an object (payload.get then raises
AttributeError, not caught), or a JSON object. -/
inductive LoadInput where
  | notFound : LoadInput
  | badJson : LoadInput
  | nonObject : LoadInput
  | payloadObj : Payload → LoadInput
deriving DecidableEq, Repr, Inhabited

/-- Python equality between a tuple and a dict: cross-type equality of
unrelated builtin containers is always false, whatever the operands hold.
Line 415 compares tuple(payload.get(queries key) or []) against
self._queries, which is a dict from category names to query tuples. -/
def pyTupleEqDict (_t : List String) (_d : List (String × List String)) :
    Bool :=
  false

/-- EmbeddingArticleFilter._load_query_embeddings (lines 395-442): catch
only a missing file and malformed JSON; compare the stored query list
against the configured query dict; discard on query or model mismatch;
the threshold field is only logged.  A JSON document that is not an object
raises. -/
def load_query_embeddings (cfg : EmbeddingConfig)
    (queriesCfg : List (String × List String)) :
    LoadInput → Except PyError (Option (List Vec))
  | .notFound => .ok none
  | .badJson => .ok none
  | .nonObject => .error PyError.typeError
  | .payloadObj p =>
      let qs := p.queries.getD []
      let embeddings := p.embeddings.getD []
      if ¬ pyTupleEqDict qs queriesCfg then .ok none
      else
        match p.model with
        | some m =>
            if m ≠ "" ∧ m ≠ cfg.model then .ok none else .ok (some embeddings)
        | none => .ok (some embeddings)

/-- The payload written by export_security_query_embeddings (lines
513-544): query_list = list(filter_layer.queries) iterates the keys of the
query dict, i.e. the category names, and those same keys are what gets
embedded. -/
def export_payload (env : FilterEnv) (cfg : EmbeddingConfig)
    (queriesCfg : List (String × List String)) : Except PyError Payload := do
  let embs ← embedTextsE env (queriesCfg.map Prod.fst) none
  pure { model := some cfg.model, threshold := some cfg.threshold,
         queries := some (queriesCfg.map Prod.fst),
         embeddings := some (embs.filterMap id) }

/-! A store-passing rendering of filter for the aliasing claim: article
dictionaries live in a heap of cells addressed by index, the caller passes
references, dict(article) allocates a fresh cell holding a copy, and every
annotation is an in-place write to a cell. -/

/-- The heap of article dictionaries. -/
abbrev Heap := List Article

/-- Read the dictionary a reference points to. -/
def heapRead (h : Heap) (i : Nat) : Article := h.getD i {}

/-- Overwrite the dictionary a reference points to. -/
def heapWrite (h : Heap) (i : Nat) (a : Article) : Heap := h.set i a

/-- The _ScoredArticle dataclass with its article field kept as the
reference it is in the source. -/
structure ScoredRef where
  score : ℚ
  ref : Nat
  vector : Vec
  category : String
deriving DecidableEq, Repr, Inhabited

/-- The descending-by-score relation on reference-carrying scored
items. -/
def scoreRefGe (a b : ScoredRef) : Prop := b.score ≤ a.score

instance : DecidableRel scoreRefGe :=
  fun a b => inferInstanceAs (Decidable (b.score ≤ a.score))

instance : IsTotal ScoredRef scoreRefGe := ⟨fun a b => le_total b.score a.score⟩

instance : IsTrans ScoredRef scoreRefGe :=
  ⟨fun _ _ _ h₁ h₂ => le_trans h₂ h₁⟩

/-- The stable descending bucket sort, over references. -/
def sortRefsByScoreDesc (l : List ScoredRef) : List ScoredRef :=
  List.insertionSort scoreRefGe l

/-- The scoring loop of filter, writing the score annotations into the
referenced cells. -/
def scoreLoopH (th : ℚ) (cs : List (String × Vec)) (pairs : List (Nat × Vec))
    (h : Heap) : Heap × List (String × List ScoredRef) :=
  pairs.foldl
    (fun st rv =>
      match scoreAgainstCentroids rv.2 cs with
      | none => st
      | some cscore =>
          if cscore.2 < th then st
          else
            (heapWrite st.1 rv.1
               (annotateScored (heapRead st.1 rv.1) cscore.1 cscore.2),
             bucketInsert st.2 cscore.1 ⟨cscore.2, rv.1, rv.2, cscore.1⟩))
    (h, [])

/-- The per-bucket retention of filter over references: the other_urls
annotations are in-place writes, and the returned references are the kept
cells. -/
def assembleBucketH (sqrtQ : ℚ → ℚ) (m : Nat) (items : List ScoredRef)
    (h : Heap) : Heap × List Nat :=
  let kept := (sortRefsByScoreDesc items).take m
  match kept with
  | [] => (h, [])
  | kernel :: others =>
      let st := others.foldl
        (fun (st : Heap × List OtherUrl) o =>
          let e : OtherUrl := ⟨(heapRead st.1 o.ref).url.getD "",
            round4 (max 0 (1 - cosineQ sqrtQ kernel.vector o.vector))⟩
          (heapWrite st.1 o.ref
             { heapRead st.1 o.ref with other_urls := some [] },
           st.2 ++ [e]))
        (h, [])
      let h2 := heapWrite st.1 kernel.ref
        { heapRead st.1 kernel.ref with other_urls := some st.2 }
      (h2, (kernel :: others).map (fun x => x.ref))

/-- The retained references assembled across the buckets. -/
def assembleRetainedH (sqrtQ : ℚ → ℚ) (m : Nat)
    (buckets : List (String × List ScoredRef)) (h : Heap) :
    Heap × List Nat :=
  buckets.foldl
    (fun st b =>
      let r := assembleBucketH sqrtQ m b.2 st.1
      (r.1, st.2 ++ r.2))
    (h, [])

/-- The try block of filter over the heap, given the references of the
freshly materialized copies.  Every fallible step precedes the first
write, so a raise leaves the heap as it was. -/
def filterTryH (env : FilterEnv) (cfg : EmbeddingConfig)
    (qs : List (String × List String)) (h : Heap) (fresh : List Nat) :
    Except PyError (Heap × List Nat) :=
  match getCategoryCentroidsE env qs with
  | .error e => .error e
  | .ok centroids =>
      let vals := fresh.map (heapRead h)
      if centroids.isEmpty then .ok (h, fresh)
      else
        let texts := vals.map (composeArticleText cfg)
        let urls := vals.map (fun a => pyStr a.url)
        match embedTextsE env texts (some urls) with
        | .error e => .error e
        | .ok raw =>
            match optionAll raw with
            | none => .error PyError.typeError
            | some rawVecs =>
                let vecs := rawVecs.map (normalizeQ env.sqrtQ)
                if vecs.isEmpty then .ok (h, fresh)
                else
                  let st := scoreLoopH cfg.threshold centroids
                    (fresh.zip vecs) h
                  .ok (assembleRetainedH env.sqrtQ cfg.max_cluster_size
                    st.2 st.1)

/-- EmbeddingArticleFilter.filter over the heap: line 187 allocates one
fresh cell per input reference holding a copy of the referenced
dictionary, the pipeline runs over the fresh cells, and on a raise the
fresh references are returned with the heap as materialized. -/
def filterH (env : FilterEnv) (cfg : EmbeddingConfig)
    (qs : List (String × List String)) (h : Heap) (refs : List Nat)
    (cluster_threshold : Option ℚ) (rng : RNG) : Heap × List Nat :=
  let copies := refs.map (heapRead h)
  let h1 := h ++ copies
  let fresh := (List.range refs.length).map (fun i => i + h.length)
  if refs.isEmpty then (h1, [])
  else
    match filterTryH env cfg qs h1 fresh with
    | .ok r => r
    | .error _ => (h1, fresh)

/-! Concrete instances used by the counterexamples and witnesses below. -/

/-- A machine square root forced only at 1: every concrete vector below
has squared norm exactly 1. -/
def exSqrt : ℚ → ℚ := fun q => if q = 1 then 1 else 0

/-- First test article. -/
def exA1 : Article := { title := some "A1", url := some "u1" }

/-- Second test article, embedded identically to the first. -/
def exB1 : Article := { title := some "A2", url := some "u2" }

/-- The two-article input list. -/
def exArts1 : List Article := [exA1, exB1]

/-- Deterministic fake backend for the two-article runs: the single topic
query embeds to the first basis vector and both articles embed to that
same vector. -/
def exBackend1 : List String → Except PyError (List Vec) :=
  fun ts =>
    if ts = ["q"] then .ok [[1, 0]]
    else if ts = ["A1", "A2"] then .ok [[1, 0], [1, 0]]
    else if ts = ["A1"] then .ok [[1, 0]]
    else .error PyError.backendFailure

/-- Environment for the two-article runs: no persistent cache. -/
def exEnv1 : FilterEnv := ⟨exSqrt, exBackend1, none, fun _ => none⟩

/-- A single topic named A with one query string. -/
def exQs1 : List (String × List String) := [("A", ["q"])]

/-- The default configuration (threshold one half, cap five). -/
def exCfg1 : EmbeddingConfig := {}

/-- The default configuration with the per-topic cap lowered to one. -/
def exCfg2 : EmbeddingConfig := { max_cluster_size := 1 }

/-- The scored item the pipeline builds for the first article. -/
def exIt1 : ScoredArticle :=
  ⟨1, annotateScored exA1 "A" 1, [1, 0], "A"⟩

/-- The scored item the pipeline builds for the second article. -/
def exIt2 : ScoredArticle :=
  ⟨1, annotateScored exB1 "A" 1, [1, 0], "A"⟩

/-- Article K of the three-article run: the top scorer of its bucket. -/
def exK4 : Article := { title := some "K", url := some "uk" }

/-- Article B of the three-article run: second by score, far from K. -/
def exB4 : Article := { title := some "B", url := some "ub" }

/-- Article C of the three-article run: third by score, close to K. -/
def exC4 : Article := { title := some "C", url := some "uc" }

/-- The three-article input list. -/
def exArts4 : List Article := [exK4, exB4, exC4]

/-- Fake backend for the three-article run: the topic anchor is the first
basis vector; K scores 2 over 3, B scores 3 over 5, C scores 5 over 13,
while the cosine of K with B is negative and the cosine of K with C is 34
over 39, so the score order disagrees with the distance order. -/
def exBackend4 : List String → Except PyError (List Vec) :=
  fun ts =>
    if ts = ["q"] then .ok [[1, 0, 0]]
    else if ts = ["K", "B", "C"] then
      .ok [[2/3, 2/3, 1/3], [3/5, -4/5, 0], [5/13, 12/13, 0]]
    else .error PyError.backendFailure

/-- Environment for the three-article run. -/
def exEnv4 : FilterEnv := ⟨exSqrt, exBackend4, none, fun _ => none⟩

/-- Configuration for the three-article run: threshold one third so all
three articles pass. -/
def exCfg4 : EmbeddingConfig := { threshold := 1/3 }

/-- An environment whose embedding backend always raises. -/
def exEnvFail : FilterEnv :=
  ⟨exSqrt, fun _ => .error PyError.backendFailure, none, fun _ => none⟩

/-- Cache for the decode-failure run: the first url holds a blob that does
not deserialize, the second url is absent. -/
def exCache7 : String → Option String :=
  fun u => if u = "u1" then some "bad" else none

/-- Backend for the decode-failure run: both texts are misses, so both are
re-embedded in one batch. -/
def exBackend7 : List String → Except PyError (List Vec) :=
  fun ts =>
    if ts = ["t1", "t2"] then .ok [[1], [2]]
    else .error PyError.backendFailure

/-- Environment with a persistent cache whose stored blobs never
deserialize. -/
def exEnv7 : FilterEnv := ⟨exSqrt, exBackend7, some exCache7, fun _ => none⟩

/-- Backend for the export run: the export embeds the category names
(the dict keys), so the batch is the single name A. -/
def exBackend8 : List String → Except PyError (List Vec) :=
  fun ts => if ts = ["A"] then .ok [[1, 0]] else .error PyError.backendFailure

/-- Environment for the export run. -/
def exEnv8 : FilterEnv := ⟨exSqrt, exBackend8, none, fun _ => none⟩

/-- The payload export_security_query_embeddings writes for the single
topic A under the default configuration. -/
def exPayload8 : Payload :=
  { model := some exCfg1.model, threshold := some exCfg1.threshold,
    queries := some ["A"], embeddings := some [[1, 0]] }

/-- A fixed random source. -/
def exRng : RNG := fun _ => 0

instance {ε α : Type} [DecidableEq ε] [DecidableEq α] :
    DecidableEq (Except ε α) :=
  fun a b =>
    match a, b with
    | .ok x, .ok y => decidable_of_iff (x = y) (by simp)
    | .error x, .error y => decidable_of_iff (x = y) (by simp)
    | .ok _, .error _ => isFalse (by simp)
    | .error _, .ok _ => isFalse (by simp)

/-- The per-article retention decision of the scoring loop, as one
function: none when no category wins or the best score is strictly below
the threshold, otherwise the annotated scored item. -/
def retainOf (th : ℚ) (cs : List (String × Vec)) (av : Article × Vec) :
    Option ScoredArticle :=
  match scoreAgainstCentroids av.2 cs with
  | none => none
  | some cscore =>
      if cscore.2 < th then none
      else some ⟨cscore.2, annotateScored av.1 cscore.1 cscore.2, av.2,
                 cscore.1⟩

/-! Claim theorems. -/

@[simp] theorem exceptBindOk {ε α β : Type} (x : α) (f : α → Except ε β) :
    (Except.ok x >>= f) = f x := rfl

@[simp] theorem exceptBindErr {ε α β : Type} (e : ε) (f : α → Except ε β) :
    ((Except.error e : Except ε α) >>= f) = .error e := rfl

/-- C9: two filter invocations given the same items in the same order and
the same configuration and backend produce identical output whatever the
injected random sources are; in particular, with the same random seed the
output is identical, as the claim states. -/
theorem C9_rng_independent_determinism : ∀ (env : FilterEnv)
    (cfg : EmbeddingConfig) (qs : List (String × List String))
    (articles : List Article) (ct : Option ℚ) (rng1 rng2 : RNG),
    filter env cfg qs articles ct rng1 = filter env cfg qs articles ct rng2 :=
  fun _ _ _ _ _ _ _ => rfl

/-- C1, amended: filter ignores both the supplied cluster_threshold and
the injected random source; with a cluster_threshold it computes exactly
what it computes without one, namely the rank-cap path. -/
theorem C1_amended_cluster_threshold_ignored : ∀ (env : FilterEnv)
    (cfg : EmbeddingConfig) (qs : List (String × List String))
    (articles : List Article) (ct : ℚ) (rng1 rng2 : RNG),
    filter env cfg qs articles (some ct) rng1 =
      filter env cfg qs articles none rng2 :=
  fun _ _ _ _ _ _ _ => rfl

/-- C1, counterexample: two identically embedded articles of one topic,
filtered with cluster_threshold nine tenths, are both returned as
top-level results (length two), although the randomized greedy leader
clustering of the spec over the same scored set forms a single cluster and
hence a single kernel, for either possible first draw of the random
source. -/
theorem C1_counterexample_clustering_not_run :
    (filter exEnv1 exCfg1 exQs1 exArts1 (some (9/10)) exRng).length = 2 ∧
    bucketArticles (scoreLoop exCfg1.threshold [("A", [1, 0])]
        (exArts1.zip [[1, 0], [1, 0]])) = [exIt1, exIt2] ∧
    (specClusterKernels exSqrt (9/10) (fun _ => 0) [exIt1, exIt2]).length = 1 ∧
    (specClusterKernels exSqrt (9/10) (fun _ => 1) [exIt1, exIt2]).length = 1 := by
  decide

/-- C6: for a nonempty article list, whenever any step of the pipeline
body raises, filter returns the materialized input list unchanged instead
of propagating the error. -/
theorem C6_fail_open : ∀ (env : FilterEnv) (cfg : EmbeddingConfig)
    (qs : List (String × List String)) (articles : List Article)
    (ct : Option ℚ) (rng : RNG) (e : PyError),
    articles ≠ [] → filterTry env cfg qs articles = .error e →
    filter env cfg qs articles ct rng = articles := by
  intro env cfg qs articles ct rng e hne herr
  simp [filter, herr, List.isEmpty_iff, hne]

/-- C6, witness: with a backend that always raises, filter returns the two
input articles unchanged. -/
theorem C6_fail_open_witness :
    filter exEnvFail exCfg1 exQs1 exArts1 none exRng = exArts1 :=
  C6_fail_open exEnvFail exCfg1 exQs1 exArts1 none exRng
    PyError.backendFailure (by decide) (by decide)

/-- C8: evaluation of the export and load pair at the failing input.  The
export of the single topic A embeds the category names and stores them as
the stored query list; reloading that very payload under the identical
configuration is nevertheless discarded (the loader compares the stored
list against the configured query dict, which can never be equal), and a
well-formed JSON file whose document is not an object makes the loader
raise instead of warning. -/
theorem C8_export_reload_divergence :
    export_payload exEnv8 exCfg1 exQs1 = .ok exPayload8 ∧
    load_query_embeddings exCfg1 exQs1 (LoadInput.payloadObj exPayload8) =
      .ok none ∧
    load_query_embeddings exCfg1 exQs1 LoadInput.nonObject =
      .error PyError.typeError := by
  decide

/-- C2, counterexample: with the per-topic cap lowered to one, the second
article scores exactly one against the topic centroid, at or above the
threshold of one half, its embedding and the centroids were both obtained,
and yet the filter output contains only the first article: retention is
not equivalent to scoring at or above the threshold. -/
theorem C2_counterexample_cap_drops_passing_article :
    filter exEnv1 exCfg2 exQs1 exArts1 none exRng =
      [{ annotateScored exA1 "A" 1 with other_urls := some [] }] ∧
    scoreAgainstCentroids [1, 0] [("A", [1, 0])] = some ("A", 1) ∧
    exCfg2.threshold ≤ 1 ∧
    (filter exEnv1 exCfg2 exQs1 exArts1 none exRng).all
      (fun a => a.url ≠ some "u2") = true := by
  decide

/-- C4, counterexample: in the three-article run the kernel carries two
other_urls entries whose distances are 11333 over 10000 followed by 641
over 5000, so the entry list is not sorted ascending by distance (the
entries follow the score order of the kept members instead). -/
theorem C4_counterexample_entries_not_distance_sorted :
    (filter exEnv4 exCfg4 exQs1 exArts4 none exRng).map
        (fun a => a.other_urls) =
      [some [⟨"ub", 11333/10000⟩, ⟨"uc", 641/5000⟩], some [], some []] ∧
    ¬ ((11333 : ℚ)/10000 ≤ 641/5000) := by
  decide

theorem scoreFold_some_spec (v : Vec) :
    ∀ (cs : List (String × Vec)) (c0 : String) (s0 : ℚ) (c : String) (s : ℚ),
    cs.foldl (scoreStep v) (some (c0, s0)) = some (c, s) →
    s0 ≤ s ∧ (∀ p ∈ cs, dotQ v p.2 ≤ s) ∧
    ((c = c0 ∧ s = s0) ∨
     (s0 < s ∧ ∃ pre w post, cs = pre ++ (c, w) :: post ∧ dotQ v w = s ∧
        ∀ p ∈ pre, dotQ v p.2 < s)) := by
  intro cs
  induction cs with
  | nil =>
    intro c0 s0 c s h
    simp only [List.foldl_nil, Option.some.injEq, Prod.mk.injEq] at h
    exact ⟨le_of_eq h.2, by simp, Or.inl ⟨h.1.symm, h.2.symm⟩⟩
  | cons x rest ih =>
    intro c0 s0 c s h
    simp only [List.foldl_cons] at h
    by_cases hx : dotQ v x.2 > s0
    · rw [show scoreStep v (some (c0, s0)) x = some (x.1, dotQ v x.2) by
        simp [scoreStep, hx]] at h
      obtain ⟨h1, h2, h3⟩ := ih x.1 (dotQ v x.2) c s h
      refine ⟨le_of_lt (lt_of_lt_of_le hx h1), ?_, ?_⟩
      · intro p hp
        rcases List.mem_cons.mp hp with rfl | hp
        · exact h1
        · exact h2 p hp
      · rcases h3 with ⟨hc, hs⟩ | ⟨hlt, pre, w, post, hdec, hw, hpre⟩
        · refine Or.inr ⟨by rw [hs]; exact hx, [], x.2, rest, ?_, ?_, ?_⟩
          · simp [hc]
          · exact hs.symm
          · simp
        · refine Or.inr ⟨lt_trans hx hlt, x :: pre, w, post, ?_, hw, ?_⟩
          · simp [hdec]
          · intro p hp
            rcases List.mem_cons.mp hp with rfl | hp
            · exact hlt
            · exact hpre p hp
    · rw [show scoreStep v (some (c0, s0)) x = some (c0, s0) by
        simp [scoreStep, hx]] at h
      obtain ⟨h1, h2, h3⟩ := ih c0 s0 c s h
      have hxle : dotQ v x.2 ≤ s0 := not_lt.mp hx
      refine ⟨h1, ?_, ?_⟩
      · intro p hp
        rcases List.mem_cons.mp hp with rfl | hp
        · exact le_trans hxle h1
        · exact h2 p hp
      · rcases h3 with hl | ⟨hlt, pre, w, post, hdec, hw, hpre⟩
        · exact Or.inl hl
        · refine Or.inr ⟨hlt, x :: pre, w, post, ?_, hw, ?_⟩
          · simp [hdec]
          · intro p hp
            rcases List.mem_cons.mp hp with rfl | hp
            · exact lt_of_le_of_lt hxle hlt
            · exact hpre p hp

theorem scoreAgainstCentroids_first_argmax :
    ∀ (v : Vec) (cs : List (String × Vec)) (c : String) (s : ℚ),
    scoreAgainstCentroids v cs = some (c, s) →
    (∀ p ∈ cs, dotQ v p.2 ≤ s) ∧
    ∃ pre w post, cs = pre ++ (c, w) :: post ∧ dotQ v w = s ∧
      ∀ p ∈ pre, dotQ v p.2 < s := by
  intro v cs c s h
  cases cs with
  | nil => simp [scoreAgainstCentroids] at h
  | cons x rest =>
    have hstep : scoreAgainstCentroids v (x :: rest) =
        rest.foldl (scoreStep v) (some (x.1, dotQ v x.2)) := by
      simp [scoreAgainstCentroids, scoreStep]
    rw [hstep] at h
    obtain ⟨h1, h2, h3⟩ := scoreFold_some_spec v rest x.1 (dotQ v x.2) c s h
    constructor
    · intro p hp
      rcases List.mem_cons.mp hp with rfl | hp
      · exact h1
      · exact h2 p hp
    · rcases h3 with ⟨hc, hs⟩ | ⟨hlt, pre, w, post, hdec, hw, hpre⟩
      · refine ⟨[], x.2, rest, by simp [hc], hs.symm, by simp⟩
      · refine ⟨x :: pre, w, post, by simp [hdec], hw, ?_⟩
        intro p hp
        rcases List.mem_cons.mp hp with rfl | hp
        · exact hlt
        · exact hpre p hp

theorem getCategoryCentroidsE_order (env : FilterEnv) :
    ∀ (qs : List (String × List String)) (cs : List (String × Vec)),
    getCategoryCentroidsE env qs = .ok cs →
    cs.map Prod.fst =
      (qs.filter (fun q => ¬ q.2.isEmpty)).map Prod.fst := by
  intro qs
  induction qs with
  | nil =>
    intro cs h
    simp only [getCategoryCentroidsE] at h
    cases h
    simp
  | cons cq rest ih =>
    intro cs h
    simp only [getCategoryCentroidsE] at h
    by_cases he : cq.2.isEmpty
    · rw [if_pos he] at h
      have he2 : cq.2 = [] := List.isEmpty_iff.mp he
      rw [ih cs h]
      simp [List.filter_cons, he2]
    · rw [if_neg he] at h
      cases hemb : embedTextsE env cq.2 none with
      | error e => rw [hemb] at h; simp at h
      | ok embs =>
        rw [hemb] at h
        simp only [exceptBindOk] at h
        cases hrec : getCategoryCentroidsE env rest with
        | error e => rw [hrec] at h; simp at h
        | ok cs2 =>
          rw [hrec] at h
          simp only [exceptBindOk, pure, Except.pure, Except.ok.injEq] at h
          subst h
          have he2 : ¬ cq.2 = [] := fun hh => he (List.isEmpty_iff.mpr hh)
          simp [List.filter_cons, he2, ih cs2 hrec]

/-- C5: the scorer returns the maximum dot score over the centroid list
together with the first category attaining it, so on ties the category
earlier in the list wins; and the centroid list is built in the order of
the configured query mapping (restricted to categories with a nonempty
query tuple), which is insertion-ordered, not hash-ordered. -/
theorem C5_tie_break_earliest_topic :
    (∀ (v : Vec) (cs : List (String × Vec)) (c : String) (s : ℚ),
      scoreAgainstCentroids v cs = some (c, s) →
      (∀ p ∈ cs, dotQ v p.2 ≤ s) ∧
      ∃ pre w post, cs = pre ++ (c, w) :: post ∧ dotQ v w = s ∧
        ∀ p ∈ pre, dotQ v p.2 < s) ∧
    (∀ (env : FilterEnv) (qs : List (String × List String))
       (cs : List (String × Vec)),
      getCategoryCentroidsE env qs = .ok cs →
      cs.map Prod.fst =
        (qs.filter (fun q => ¬ q.2.isEmpty)).map Prod.fst) :=
  ⟨scoreAgainstCentroids_first_argmax, getCategoryCentroidsE_order⟩

/-- C5, witness: on two centroids that tie at score one the scorer picks
the first, and every centroid scores at most one. -/
theorem C5_tie_break_witness : dotQ [1, 0] [1, 0] ≤ 1 :=
  (C5_tie_break_earliest_topic.1 [1, 0] [("A", [1, 0]), ("B", [1, 0])] "A" 1
    (by decide)).1 ("B", [1, 0]) (by decide)

/-- C3: in rank-cap mode the bucket is sorted stably by score descending
(a permutation of its input that is pairwise sorted), only the top
max_cluster_size items are kept, the bucket output is exactly those kept
items up to the other_urls annotation, its length never exceeds
max_cluster_size, and every kept score is at least every discarded
score. -/
theorem C3_rank_cap (sqrtQ : ℚ → ℚ) (m : Nat) (items : List ScoredArticle) :
    (assembleBucket sqrtQ m items).length ≤ m ∧
    List.Perm (sortByScoreDesc items) items ∧
    List.Sorted scoreGe (sortByScoreDesc items) ∧
    (∀ x ∈ (sortByScoreDesc items).take m,
     ∀ y ∈ (sortByScoreDesc items).drop m, y.score ≤ x.score) ∧
    (assembleBucket sqrtQ m items).map (fun a => { a with other_urls := none }) =
      ((sortByScoreDesc items).take m).map
        (fun it => { it.article with other_urls := none }) := by
  have hperm : List.Perm (sortByScoreDesc items) items :=
    List.perm_insertionSort scoreGe items
  have hsort : List.Sorted scoreGe (sortByScoreDesc items) :=
    List.sorted_insertionSort scoreGe items
  have htd : ∀ x ∈ (sortByScoreDesc items).take m,
      ∀ y ∈ (sortByScoreDesc items).drop m, y.score ≤ x.score := by
    have hs := hsort
    rw [← List.take_append_drop m (sortByScoreDesc items)] at hs
    intro x hx y hy
    exact (List.pairwise_append.mp hs).2.2 x hx y hy
  have hmap : (assembleBucket sqrtQ m items).map
      (fun a => { a with other_urls := none }) =
      ((sortByScoreDesc items).take m).map
        (fun it => { it.article with other_urls := none }) := by
    cases hk : (sortByScoreDesc items).take m with
    | nil => simp [assembleBucket, hk]
    | cons kernel others => simp [assembleBucket, hk, List.map_map, Function.comp]
  refine ⟨?_, hperm, hsort, htd, hmap⟩
  have hlen := congrArg List.length hmap
  simp only [List.length_map] at hlen
  rw [hlen]
  exact List.length_take_le m _

/-- C3, witness: with cap one over a two-item bucket, at most one item is
returned. -/
theorem C3_rank_cap_witness :
    (assembleBucket exSqrt 1 [exIt1, exIt2]).length ≤ 1 :=
  (C3_rank_cap exSqrt 1 [exIt1, exIt2]).1

/-- C4, amended: the kernel (top sorted item) of a bucket carries one
other_urls entry per remaining kept member, in the kept (score-descending)
order rather than sorted by distance, each entry holding the member url
and round4(max(0, 1 - cosine(kernel, member))); there are at most
max_cluster_size - 1 entries; and every non-kernel retained item carries
an empty other_urls list. -/
theorem C4_amended_entries (sqrtQ : ℚ → ℚ) (m : Nat)
    (items : List ScoredArticle) (kernel : ScoredArticle)
    (others : List ScoredArticle)
    (h : (sortByScoreDesc items).take m = kernel :: others) :
    assembleBucket sqrtQ m items =
      ({ kernel.article with
          other_urls := some (others.map (otherEntry sqrtQ kernel)) })
        :: others.map (fun o => { o.article with other_urls := some [] }) ∧
    (others.map (otherEntry sqrtQ kernel)).length ≤ m - 1 ∧
    (∀ a ∈ others.map (fun o => { o.article with other_urls := some [] }),
      a.other_urls = some []) := by
  refine ⟨by simp [assembleBucket, h], ?_, ?_⟩
  · have := List.length_take_le m (sortByScoreDesc items)
    rw [h] at this
    simp only [List.length_cons] at this
    simp only [List.length_map]
    omega
  · intro a ha
    obtain ⟨o, _, rfl⟩ := List.mem_map.mp ha
    rfl

/-- C4, witness: a two-item bucket under the default cap yields the kernel
with one entry and the other member with an empty list. -/
theorem C4_amended_entries_witness :
    assembleBucket exSqrt 5 [exIt1, exIt2] =
      ({ exIt1.article with
          other_urls := some [otherEntry exSqrt exIt1 exIt2] })
        :: [{ exIt2.article with other_urls := some [] }] :=
  (C4_amended_entries exSqrt 5 [exIt1, exIt2] exIt1 [exIt2] (by decide)).1

theorem foldl_append_bind {α β : Type} (f : β → List α) :
    ∀ (l : List β) (acc : List α),
    l.foldl (fun a b => a ++ f b) acc = acc ++ l.flatMap f := by
  intro l
  induction l with
  | nil => intro acc; simp
  | cons x rest ih => intro acc; simp [ih, List.append_assoc]

theorem bucketArticles_eq_flatMap {α : Type} (l : List (String × List α)) :
    bucketArticles l = l.flatMap (fun b => b.2) := by
  simpa [bucketArticles] using
    foldl_append_bind (fun b : String × List α => b.2) l []

theorem bucketArticles_bucketInsert {α : Type} (cat : String) (x : α) :
    ∀ (l : List (String × List α)),
    List.Perm (bucketArticles (bucketInsert l cat x))
      (bucketArticles l ++ [x]) := by
  intro l
  induction l with
  | nil => simp [bucketInsert, bucketArticles_eq_flatMap]
  | cons b rest ih =>
    by_cases hb : b.1 = cat
    · simp only [bucketInsert, if_pos hb, bucketArticles_eq_flatMap,
        List.flatMap_cons]
      rw [List.append_assoc, List.append_assoc]
      exact List.Perm.append_left b.2 List.perm_append_comm
    · simp only [bucketInsert, if_neg hb, bucketArticles_eq_flatMap,
        List.flatMap_cons] at ih ⊢
      rw [List.append_assoc]
      exact List.Perm.append_left b.2 ih

theorem scoreLoop_fold_perm (th : ℚ) (cs : List (String × Vec)) :
    ∀ (pairs : List (Article × Vec)) (bs : List (String × List ScoredArticle)),
    List.Perm
      (bucketArticles (pairs.foldl
        (fun buckets av =>
          match scoreAgainstCentroids av.2 cs with
          | none => buckets
          | some cscore =>
              if cscore.2 < th then buckets
              else bucketInsert buckets cscore.1
                ⟨cscore.2, annotateScored av.1 cscore.1 cscore.2, av.2,
                 cscore.1⟩) bs))
      (bucketArticles bs ++ pairs.filterMap (retainOf th cs)) := by
  intro pairs
  induction pairs with
  | nil => intro bs; simp
  | cons av rest ih =>
    intro bs
    simp only [List.foldl_cons, List.filterMap_cons]
    cases hsc : scoreAgainstCentroids av.2 cs with
    | none =>
      simp only [hsc, retainOf]
      exact ih bs
    | some cscore =>
      by_cases hlt : cscore.2 < th
      · simp only [hsc, retainOf, if_pos hlt]
        exact ih bs
      · simp only [hsc, retainOf, if_neg hlt]
        refine List.Perm.trans
          (ih (bucketInsert bs cscore.1
            ⟨cscore.2, annotateScored av.1 cscore.1 cscore.2, av.2,
             cscore.1⟩)) ?_
        refine List.Perm.trans
          (List.Perm.append_right (rest.filterMap (retainOf th cs))
            (bucketArticles_bucketInsert cscore.1
              ⟨cscore.2, annotateScored av.1 cscore.1 cscore.2, av.2,
               cscore.1⟩ bs)) ?_
        rw [List.append_assoc]
        simp

theorem bucketArticles_scoreLoop (th : ℚ) (cs : List (String × Vec))
    (pairs : List (Article × Vec)) :
    List.Perm (bucketArticles (scoreLoop th cs pairs))
      (pairs.filterMap (retainOf th cs)) := by
  simpa [scoreLoop, bucketArticles] using scoreLoop_fold_perm th cs pairs []

theorem mem_retainOf_props (th : ℚ) (cs : List (String × Vec))
    (pairs : List (Article × Vec)) (it : ScoredArticle)
    (hit : it ∈ pairs.filterMap (retainOf th cs)) :
    th ≤ it.score ∧ it.article.prefilter_score = some it.score := by
  obtain ⟨av, _, hret⟩ := List.mem_filterMap.mp hit
  unfold retainOf at hret
  cases hsc : scoreAgainstCentroids av.2 cs with
  | none => rw [hsc] at hret; simp at hret
  | some cscore =>
    rw [hsc] at hret
    dsimp only at hret
    by_cases hlt : cscore.2 < th
    · rw [if_pos hlt] at hret; simp at hret
    · rw [if_neg hlt] at hret
      cases hret
      exact ⟨not_lt.mp hlt, rfl⟩

theorem assembleRetained_eq_flatMap (sqrtQ : ℚ → ℚ) (m : Nat)
    (buckets : List (String × List ScoredArticle)) :
    assembleRetained sqrtQ m buckets =
      buckets.flatMap (fun b => assembleBucket sqrtQ m b.2) := by
  simpa [assembleRetained] using
    foldl_append_bind
      (fun b : String × List ScoredArticle => assembleBucket sqrtQ m b.2)
      buckets []

theorem mem_assembleBucket_score (sqrtQ : ℚ → ℚ) (m : Nat)
    (items : List ScoredArticle) (a : Article)
    (ha : a ∈ assembleBucket sqrtQ m items) :
    ∃ it ∈ items, a.prefilter_score = it.article.prefilter_score := by
  have hsub : ∀ z ∈ (sortByScoreDesc items).take m, z ∈ items := by
    intro z hz
    exact (List.perm_insertionSort scoreGe items).mem_iff.mp
      (List.take_subset m _ hz)
  cases hk : (sortByScoreDesc items).take m with
  | nil => rw [assembleBucket, hk] at ha; simp at ha
  | cons kernel others =>
    rw [assembleBucket, hk] at ha
    rcases List.mem_cons.mp ha with rfl | ha2
    · exact ⟨kernel, hsub kernel (by rw [hk]; exact List.mem_cons_self _ _), rfl⟩
    · obtain ⟨o, ho, rfl⟩ := List.mem_map.mp ha2
      exact ⟨o, hsub o (by rw [hk]; exact List.mem_cons_of_mem _ ho), rfl⟩

/-- C2, amended: the scored set produced by the threshold stage is, up to
the grouping into category buckets, exactly the set of articles whose best
centroid score is at or above the threshold (a score exactly at the
threshold is retained at this stage, a strictly lower one contributes
nothing); every scored item carries its score at or above the threshold in
its prefilter_score field; and consequently every article of the final
output is annotated with a score at or above the threshold.  Retention in
the final output is additionally capped per category, as claim C3
states. -/
theorem C2_amended_threshold (th : ℚ) (cs : List (String × Vec))
    (pairs : List (Article × Vec)) (sqrtQ : ℚ → ℚ) (m : Nat) :
    List.Perm (bucketArticles (scoreLoop th cs pairs))
      (pairs.filterMap (retainOf th cs)) ∧
    (∀ it ∈ bucketArticles (scoreLoop th cs pairs),
       th ≤ it.score ∧ it.article.prefilter_score = some it.score) ∧
    (∀ a ∈ assembleRetained sqrtQ m (scoreLoop th cs pairs),
       ∃ s, a.prefilter_score = some s ∧ th ≤ s) := by
  have hperm := bucketArticles_scoreLoop th cs pairs
  have hprops : ∀ it ∈ bucketArticles (scoreLoop th cs pairs),
      th ≤ it.score ∧ it.article.prefilter_score = some it.score := by
    intro it hit
    exact mem_retainOf_props th cs pairs it (hperm.mem_iff.mp hit)
  refine ⟨hperm, hprops, ?_⟩
  intro a ha
  rw [assembleRetained_eq_flatMap] at ha
  obtain ⟨b, hb, hab⟩ := List.mem_flatMap.mp ha
  obtain ⟨it, hit, hsc⟩ := mem_assembleBucket_score sqrtQ m b.2 a hab
  have hitflat : it ∈ bucketArticles (scoreLoop th cs pairs) := by
    rw [bucketArticles_eq_flatMap]
    exact List.mem_flatMap.mpr ⟨b, hb, hit⟩
  obtain ⟨h1, h2⟩ := hprops it hitflat
  exact ⟨it.score, by rw [hsc, h2], h1⟩

/-- C2, amended, witness: in the capped two-article run the returned
article carries a score at or above the threshold. -/
theorem C2_amended_threshold_witness :
    ∃ s, ({ annotateScored exA1 "A" 1 with
        other_urls := some [] } : Article).prefilter_score = some s ∧
      exCfg2.threshold ≤ s :=
  (C2_amended_threshold exCfg2.threshold [("A", [1, 0])]
      (exArts1.zip [[1, 0], [1, 0]]) exSqrt 1).2.2
    { annotateScored exA1 "A" 1 with other_urls := some [] } (by decide)

theorem fillMisses_length : ∀ (hits : List (Option Vec)) (vs : List Vec),
    (fillMisses hits vs).length = hits.length := by
  intro hits
  induction hits with
  | nil => intro vs; simp [fillMisses]
  | cons h rest ih =>
    intro vs
    cases h with
    | some v => simp [fillMisses, ih]
    | none =>
      cases vs with
      | nil => simp [fillMisses, ih]
      | cons n ns => simp [fillMisses, ih]

theorem fillMisses_getD_none :
    ∀ (hits : List (Option Vec)) (vs : List Vec) (i : Nat),
    i < hits.length → hits.getD i none = none →
    (hits.take i).countP (fun h => h.isNone) < vs.length →
    (fillMisses hits vs).getD i none =
      some (vs.getD ((hits.take i).countP (fun h => h.isNone)) []) := by
  intro hits
  induction hits with
  | nil => intro vs i hi; simp at hi
  | cons h rest ih =>
    intro vs i hi hnone hcnt
    cases h with
    | some v =>
      cases i with
      | zero => simp [List.getD] at hnone
      | succ j =>
        have hj : j < rest.length := by simpa using hi
        have hnone2 : rest.getD j none = none := by simpa [List.getD] using hnone
        have hcnt2 : (rest.take j).countP (fun h => h.isNone) < vs.length := by
          simpa [List.countP_cons] using hcnt
        have := ih vs j hj hnone2 hcnt2
        simpa [fillMisses, List.getD, List.countP_cons] using this
    | none =>
      cases i with
      | zero =>
        have : 0 < vs.length := by simpa using hcnt
        cases vs with
        | nil => simp at this
        | cons n ns => simp [fillMisses, List.getD]
      | succ j =>
        have hj : j < rest.length := by simpa using hi
        have hnone2 : rest.getD j none = none := by simpa [List.getD] using hnone
        have hvpos : 0 < vs.length := by
          have h0 : 0 ≤ (rest.take j).countP (fun h => h.isNone) := Nat.zero_le _
          have := hcnt
          simp [List.countP_cons] at this
          omega
        cases vs with
        | nil => simp at hvpos
        | cons n ns =>
          have hcnt2 : (rest.take j).countP (fun h => h.isNone) < ns.length := by
            have := hcnt
            simp [List.countP_cons] at this
            simpa using this
          have := ih ns j hj hnone2 hcnt2
          simpa [fillMisses, List.getD, List.countP_cons] using this

theorem hitsOf_getD (c : String → Option String) (d : String → Option Vec) :
    ∀ (texts urls : List String) (i : Nat),
    i < texts.length → i < urls.length →
    (hitsOf c d texts urls).getD i none =
      cachedLookup c d (urls.getD i "") := by
  intro texts
  induction texts with
  | nil => intro urls i hi; simp at hi
  | cons t ts ih =>
    intro urls i hi hu
    cases urls with
    | nil => simp at hu
    | cons u us =>
      cases i with
      | zero => simp [hitsOf, List.getD]
      | succ j =>
        have h1 : j < ts.length := by simpa using hi
        have h2 : j < us.length := by simpa using hu
        simpa [hitsOf, List.getD] using ih us j h1 h2

theorem missingTextsOf_length (c : String → Option String)
    (d : String → Option Vec) :
    ∀ (texts urls : List String),
    (missingTextsOf c d texts urls).length =
      (hitsOf c d texts urls).countP (fun h => h.isNone) := by
  intro texts
  induction texts with
  | nil => intro urls; simp [missingTextsOf, hitsOf]
  | cons t ts ih =>
    intro urls
    cases urls with
    | nil => simp [missingTextsOf, hitsOf]
    | cons u us =>
      simp only [missingTextsOf, hitsOf, List.zip_cons_cons,
        List.filterMap_cons, List.map_cons, List.countP_cons]
      by_cases hc : (cachedLookup c d u).isNone
      · rw [if_pos hc]
        have h2 := ih us
        simp only [missingTextsOf, hitsOf] at h2
        simp [hc] at h2 ⊢
        omega
      · rw [if_neg hc]
        have h2 := ih us
        simp only [missingTextsOf, hitsOf] at h2
        simp [hc] at h2 ⊢
        omega

theorem hitsOf_length (c : String → Option String) (d : String → Option Vec)
    (texts urls : List String) :
    (hitsOf c d texts urls).length = min texts.length urls.length := by
  simp [hitsOf]

theorem countP_take_lt_of_none (hits : List (Option Vec)) (i : Nat)
    (hi : i < hits.length) (hnone : hits.getD i none = none) :
    (hits.take i).countP (fun h => h.isNone) <
      hits.countP (fun h => h.isNone) := by
  have hsplit : hits = hits.take i ++ hits.drop i :=
    (List.take_append_drop i hits).symm
  have hdrop : hits.drop i = hits.getD i none :: hits.drop (i + 1) := by
    rw [List.getD_eq_getElem hits none hi]
    exact (List.getElem_cons_drop hits i hi).symm
  conv_rhs => rw [hsplit]
  rw [List.countP_append, hdrop, hnone, List.countP_cons]
  simp

/-- C7: for a batch through the cached embedding path where the stored
vector at position i fails to deserialize, the lookup is treated as a miss
for that item alone: the batch succeeds (no error is propagated), the
output has one vector per text, and position i holds the vector the
backend computed for that text (the one at the rank of position i among
the misses, in original order). -/
theorem C7_decode_failure_is_miss
    (backend : List String → Except PyError (List Vec))
    (c : String → Option String) (d : String → Option Vec) (s : ℚ → ℚ)
    (texts urls : List String) (i : Nat) (blob : String) (vs : List Vec)
    (hlen : texts.length = urls.length) (hi : i < texts.length)
    (hblob : c (urls.getD i "") = some blob) (hdec : d blob = none)
    (hb : backend (missingTextsOf c d texts urls) = .ok vs)
    (hvlen : vs.length = (missingTextsOf c d texts urls).length) :
    embedTextsE ⟨s, backend, some c, d⟩ texts (some urls) =
      .ok (fillMisses (hitsOf c d texts urls) vs) ∧
    (fillMisses (hitsOf c d texts urls) vs).length = texts.length ∧
    (fillMisses (hitsOf c d texts urls) vs).getD i none =
      some (vs.getD
        (((hitsOf c d texts urls).take i).countP (fun h => h.isNone)) []) := by
  have hiu : i < urls.length := hlen ▸ hi
  have hhl : (hitsOf c d texts urls).length = texts.length := by
    rw [hitsOf_length, hlen, min_self]
  have hhnone : (hitsOf c d texts urls).getD i none = none := by
    rw [hitsOf_getD c d texts urls i hi hiu]
    show (c (urls.getD i "")).bind d = none
    rw [hblob]
    exact hdec
  have hcnt : ((hitsOf c d texts urls).take i).countP (fun h => h.isNone) <
      vs.length := by
    rw [hvlen, missingTextsOf_length]
    exact countP_take_lt_of_none _ i (hhl ▸ hi) hhnone
  have hmisspos : 0 < (missingTextsOf c d texts urls).length := by
    rw [missingTextsOf_length]
    exact Nat.lt_of_le_of_lt (Nat.zero_le _)
      (countP_take_lt_of_none _ i (hhl ▸ hi) hhnone)
  have hmiss : (missingTextsOf c d texts urls).isEmpty = false := by
    cases hm : missingTextsOf c d texts urls with
    | nil => rw [hm] at hmisspos; simp at hmisspos
    | cons a l => simp
  have hus : urls.isEmpty = false := by
    cases hu : urls with
    | nil => rw [hu] at hiu; simp at hiu
    | cons a l => simp
  have hzlen : (texts.zip urls).length = texts.length := by
    rw [List.length_zip, hlen, min_self]
  have hmain : embedTextsE ⟨s, backend, some c, d⟩ texts (some urls) =
      .ok (fillMisses (hitsOf c d texts urls) vs) := by
    simp only [embedTextsE, hus, Bool.false_eq_true, if_false]
    rw [embedTextsCached]
    simp only [hmiss, Bool.false_eq_true, if_false, hb, Except.map,
      hzlen, Nat.sub_self, List.replicate_zero, List.append_nil]
  refine ⟨hmain, ?_, ?_⟩
  · rw [fillMisses_length, hhl]
  · exact fillMisses_getD_none (hitsOf c d texts urls) vs i (hhl ▸ hi)
      hhnone hcnt

/-- C7, witness: both stored blobs fail to decode (one bad blob, one
absent), both texts are re-embedded in one backend batch, and the batch
result lands back in the original positions with no error. -/
theorem C7_decode_failure_witness :
    embedTextsE exEnv7 ["t1", "t2"] (some ["u1", "u2"]) =
      .ok (fillMisses
        (hitsOf exCache7 exEnv7.jsonDecodeVec ["t1", "t2"] ["u1", "u2"])
        [[1], [2]]) :=
  (C7_decode_failure_is_miss exBackend7 exCache7 exEnv7.jsonDecodeVec exSqrt
    ["t1", "t2"] ["u1", "u2"] 0 "bad" [[1], [2]] (by decide) (by decide)
    (by decide) (by decide) (by decide) (by decide)).1

theorem heapWrite_getD_ne (h : Heap) (j : Nat) (a : Article) (i : Nat)
    (hij : i ≠ j) : (heapWrite h j a).getD i {} = h.getD i {} := by
  rw [heapWrite, List.getD_eq_getElem?_getD, List.getD_eq_getElem?_getD,
    List.getElem?_set_ne (fun hh => hij hh.symm)]

theorem scoreLoopH_inv (th : ℚ) (cs : List (String × Vec)) (h0 : Heap)
    (base : Nat) :
    ∀ (pairs : List (Nat × Vec))
      (st : Heap × List (String × List ScoredRef)),
    (∀ p ∈ pairs, base ≤ p.1) →
    (∀ i, i < base → st.1.getD i {} = h0.getD i {}) →
    (∀ r ∈ bucketArticles st.2, base ≤ r.ref) →
    (∀ i, i < base →
      (pairs.foldl
        (fun st rv =>
          match scoreAgainstCentroids rv.2 cs with
          | none => st
          | some cscore =>
              if cscore.2 < th then st
              else
                (heapWrite st.1 rv.1
                   (annotateScored (heapRead st.1 rv.1) cscore.1 cscore.2),
                 bucketInsert st.2 cscore.1
                   ⟨cscore.2, rv.1, rv.2, cscore.1⟩)) st).1.getD i {} =
        h0.getD i {}) ∧
    (∀ r ∈ bucketArticles
      (pairs.foldl
        (fun st rv =>
          match scoreAgainstCentroids rv.2 cs with
          | none => st
          | some cscore =>
              if cscore.2 < th then st
              else
                (heapWrite st.1 rv.1
                   (annotateScored (heapRead st.1 rv.1) cscore.1 cscore.2),
                 bucketInsert st.2 cscore.1
                   ⟨cscore.2, rv.1, rv.2, cscore.1⟩)) st).2,
      base ≤ r.ref) := by
  intro pairs
  induction pairs with
  | nil => intro st hp hheap hrefs; exact ⟨hheap, hrefs⟩
  | cons rv rest ih =>
    intro st hp hheap hrefs
    simp only [List.foldl_cons]
    have hbase : base ≤ rv.1 := hp rv (List.mem_cons_self _ _)
    have hrest : ∀ p ∈ rest, base ≤ p.1 :=
      fun p hp2 => hp p (List.mem_cons_of_mem _ hp2)
    cases hsc : scoreAgainstCentroids rv.2 cs with
    | none =>
      simp only [hsc]
      exact ih st hrest hheap hrefs
    | some cscore =>
      by_cases hlt : cscore.2 < th
      · simp only [hsc, if_pos hlt]
        exact ih st hrest hheap hrefs
      · simp only [hsc, if_neg hlt]
        refine ih _ hrest ?_ ?_
        · intro i hi
          rw [heapWrite_getD_ne st.1 rv.1 _ i (by omega)]
          exact hheap i hi
        · intro r hr
          have hperm := bucketArticles_bucketInsert cscore.1
            (⟨cscore.2, rv.1, rv.2, cscore.1⟩ : ScoredRef) st.2
          rcases List.mem_append.mp (hperm.mem_iff.mp hr) with hr2 | hr2
          · exact hrefs r hr2
          · rw [List.mem_singleton.mp hr2]
            exact hbase

theorem assembleBucketH_inner_inv (h0 : Heap) (base : Nat)
    (sqrtQ : ℚ → ℚ) (kernel : ScoredRef) :
    ∀ (others : List ScoredRef) (st : Heap × List OtherUrl),
    (∀ o ∈ others, base ≤ o.ref) →
    (∀ i, i < base → st.1.getD i {} = h0.getD i {}) →
    (∀ i, i < base →
      (others.foldl
        (fun (st : Heap × List OtherUrl) o =>
          let e : OtherUrl := ⟨(heapRead st.1 o.ref).url.getD "",
            round4 (max 0 (1 - cosineQ sqrtQ kernel.vector o.vector))⟩
          (heapWrite st.1 o.ref
             { heapRead st.1 o.ref with other_urls := some [] },
           st.2 ++ [e])) st).1.getD i {} = h0.getD i {}) := by
  intro others
  induction others with
  | nil => intro st hro hheap; exact hheap
  | cons o rest ih =>
    intro st hro hheap i hi
    simp only [List.foldl_cons]
    refine ih _ (fun p hp => hro p (List.mem_cons_of_mem _ hp)) ?_ i hi
    intro j hj
    rw [heapWrite_getD_ne st.1 o.ref _ j
      (by have := hro o (List.mem_cons_self _ _); omega)]
    exact hheap j hj

theorem assembleBucketH_inv (sqrtQ : ℚ → ℚ) (m : Nat)
    (items : List ScoredRef) (h : Heap) (h0 : Heap) (base : Nat)
    (hitems : ∀ r ∈ items, base ≤ r.ref)
    (hheap : ∀ i, i < base → h.getD i {} = h0.getD i {}) :
    (∀ i, i < base →
      (assembleBucketH sqrtQ m items h).1.getD i {} = h0.getD i {}) ∧
    (∀ r ∈ (assembleBucketH sqrtQ m items h).2, base ≤ r) := by
  have hkept : ∀ z ∈ (sortRefsByScoreDesc items).take m, base ≤ z.ref := by
    intro z hz
    exact hitems z ((List.perm_insertionSort scoreRefGe items).mem_iff.mp
      (List.take_subset m _ hz))
  cases hk : (sortRefsByScoreDesc items).take m with
  | nil =>
    rw [assembleBucketH, hk]
    exact ⟨hheap, by simp⟩
  | cons kernel others =>
    rw [assembleBucketH, hk]
    have hkb : base ≤ kernel.ref :=
      hkept kernel (by rw [hk]; exact List.mem_cons_self _ _)
    have hob : ∀ o ∈ others, base ≤ o.ref :=
      fun o ho => hkept o (by rw [hk]; exact List.mem_cons_of_mem _ ho)
    have hinner := assembleBucketH_inner_inv h0 base sqrtQ kernel others
      (h, []) hob hheap
    constructor
    · intro i hi
      simp only []
      rw [heapWrite_getD_ne _ kernel.ref _ i (by omega)]
      exact hinner i hi
    · intro r hr
      simp only [List.map_cons] at hr
      rcases List.mem_cons.mp hr with rfl | hr2
      · exact hkb
      · obtain ⟨o, ho, rfl⟩ := List.mem_map.mp hr2
        exact hob o ho

theorem assembleRetainedH_inv (sqrtQ : ℚ → ℚ) (m : Nat) (h0 : Heap)
    (base : Nat) :
    ∀ (buckets : List (String × List ScoredRef)) (st : Heap × List Nat),
    (∀ b ∈ buckets, ∀ r ∈ b.2, base ≤ r.ref) →
    (∀ i, i < base → st.1.getD i {} = h0.getD i {}) →
    (∀ r ∈ st.2, base ≤ r) →
    (∀ i, i < base →
      (buckets.foldl
        (fun st b =>
          let r := assembleBucketH sqrtQ m b.2 st.1
          (r.1, st.2 ++ r.2)) st).1.getD i {} = h0.getD i {}) ∧
    (∀ r ∈ (buckets.foldl
        (fun st b =>
          let r := assembleBucketH sqrtQ m b.2 st.1
          (r.1, st.2 ++ r.2)) st).2, base ≤ r) := by
  intro buckets
  induction buckets with
  | nil => intro st hb hheap hrefs; exact ⟨hheap, hrefs⟩
  | cons b rest ih =>
    intro st hb hheap hrefs
    simp only [List.foldl_cons]
    have hbset := hb b (List.mem_cons_self _ _)
    have hstep := assembleBucketH_inv sqrtQ m b.2 st.1 h0 base hbset hheap
    refine ih _ (fun p hp => hb p (List.mem_cons_of_mem _ hp)) hstep.1 ?_
    intro r hr
    rcases List.mem_append.mp hr with hr2 | hr2
    · exact hrefs r hr2
    · exact hstep.2 r hr2

theorem filterTryH_ok_inv (env : FilterEnv) (cfg : EmbeddingConfig)
    (qs : List (String × List String)) (h : Heap) (fresh : List Nat)
    (base : Nat) (hfresh : ∀ r ∈ fresh, base ≤ r) (res : Heap × List Nat)
    (hok : filterTryH env cfg qs h fresh = .ok res) :
    (∀ i, i < base → res.1.getD i {} = h.getD i {}) ∧
    (∀ r ∈ res.2, base ≤ r) := by
  rw [filterTryH] at hok
  cases hcent : getCategoryCentroidsE env qs with
  | error e => rw [hcent] at hok; simp at hok
  | ok centroids =>
    rw [hcent] at hok
    dsimp only at hok
    by_cases hce : centroids.isEmpty
    · rw [if_pos hce] at hok
      cases hok
      exact ⟨fun i _ => rfl, hfresh⟩
    · rw [if_neg hce] at hok
      cases hemb : embedTextsE env
          ((fresh.map (heapRead h)).map (composeArticleText cfg))
          (some ((fresh.map (heapRead h)).map (fun a => pyStr a.url))) with
      | error e => rw [hemb] at hok; simp at hok
      | ok raw =>
        rw [hemb] at hok
        dsimp only at hok
        cases hall : optionAll raw with
        | none => rw [hall] at hok; simp at hok
        | some rawVecs =>
          rw [hall] at hok
          dsimp only at hok
          by_cases hve : (rawVecs.map (normalizeQ env.sqrtQ)).isEmpty
          · rw [if_pos hve] at hok
            cases hok
            exact ⟨fun i _ => rfl, hfresh⟩
          · rw [if_neg hve] at hok
            cases hok
            have hpairs : ∀ p ∈ fresh.zip (rawVecs.map (normalizeQ env.sqrtQ)),
                base ≤ p.1 := by
              intro p hp
              exact hfresh p.1 (List.of_mem_zip hp).1
            have hscore := scoreLoopH_inv cfg.threshold centroids h base
              (fresh.zip (rawVecs.map (normalizeQ env.sqrtQ))) (h, [])
              hpairs (fun i _ => rfl) (by simp [bucketArticles])
            have hbuckets : ∀ b ∈ (scoreLoopH cfg.threshold centroids
                (fresh.zip (rawVecs.map (normalizeQ env.sqrtQ))) h).2,
                ∀ r ∈ b.2, base ≤ r.ref := by
              intro b hbmem r hrmem
              refine hscore.2 r ?_
              rw [bucketArticles_eq_flatMap]
              exact List.mem_flatMap.mpr ⟨b, hbmem, hrmem⟩
            have hfin := assembleRetainedH_inv env.sqrtQ
              cfg.max_cluster_size h base
              (scoreLoopH cfg.threshold centroids
                (fresh.zip (rawVecs.map (normalizeQ env.sqrtQ))) h).2
              ((scoreLoopH cfg.threshold centroids
                (fresh.zip (rawVecs.map (normalizeQ env.sqrtQ))) h).1, [])
              hbuckets hscore.1 (by simp)
            exact ⟨hfin.1, hfin.2⟩

/-- C10: filter never mutates the cells the caller passes in: in the
store-passing rendering, line 187 allocates a fresh copy cell per input
reference, every annotation write of the pipeline targets those fresh
cells, every heap cell that existed before the call holds its original
dictionary afterwards, and every returned reference is one of the fresh
copies. -/
theorem C10_no_caller_mutation (env : FilterEnv) (cfg : EmbeddingConfig)
    (qs : List (String × List String)) (h : Heap) (refs : List Nat)
    (ct : Option ℚ) (rng : RNG) :
    (∀ i, i < h.length →
      (filterH env cfg qs h refs ct rng).1.getD i {} = h.getD i {}) ∧
    (∀ r ∈ (filterH env cfg qs h refs ct rng).2, h.length ≤ r) := by
  have hfresh : ∀ r ∈ (List.range refs.length).map (fun i => i + h.length),
      h.length ≤ r := by
    intro r hr
    obtain ⟨j, _, rfl⟩ := List.mem_map.mp hr
    omega
  have happ : ∀ i, i < h.length →
      (h ++ refs.map (heapRead h)).getD i {} = h.getD i {} :=
    fun i hi => List.getD_append h (refs.map (heapRead h)) {} i hi
  rw [filterH]
  by_cases hre : refs.isEmpty
  · rw [if_pos hre]
    exact ⟨happ, by simp⟩
  · rw [if_neg hre]
    cases htry : filterTryH env cfg qs (h ++ refs.map (heapRead h))
        ((List.range refs.length).map (fun i => i + h.length)) with
    | error e =>
      exact ⟨happ, hfresh⟩
    | ok res =>
      have hinv := filterTryH_ok_inv env cfg qs (h ++ refs.map (heapRead h))
        ((List.range refs.length).map (fun i => i + h.length)) h.length
        hfresh res htry
      exact ⟨fun i hi => (hinv.1 i hi).trans (happ i hi), hinv.2⟩

/-- C10, witness: filtering one article through the heap leaves the
callers original cell untouched. -/
theorem C10_no_caller_mutation_witness :
    (filterH exEnv1 exCfg1 exQs1 [exA1] [0] none exRng).1.getD 0 {} =
      ([exA1] : Heap).getD 0 {} :=
  (C10_no_caller_mutation exEnv1 exCfg1 exQs1 [exA1] [0] none exRng).1 0
    (by decide)
